import Mathlib

/-!
# go-caskdb: shallow embedding of `disk_store.go` and the record codec

This file embeds the Bitcask-style key-value store of the repository in
Lean 4 and proves the correctness properties claimed in the specification.

Representation choices:
* bytes are `Nat` (the byte positions produced by the codec are always
  `< 256`, key/value payload bytes pass through the codec uninterpreted);
* Go strings (keys, values, file content) are `List Nat` byte lists;
* `uint32` arithmetic is `Nat` arithmetic with explicit `% 2 ^ 32`
  (written `% u32`) exactly where the Go code performs 32-bit
  conversions or additions;
* the Go map `keyDir` is an association list where insertion conses to
  the front and `List.lookup` takes the first (that is, most recent)
  binding — observationally the same last-write-wins lookup as a map;
* `os.File` reads are modelled by `readFill`: a `Read` into a buffer of
  `n` zero-initialised bytes copies the available bytes and leaves the
  tail of the buffer zero, which is exactly what the Go call sites see
  (they never inspect the byte count except as written in the source).
-/

namespace CaskDB

/-- 2 ^ 32, the modulus of Go's `uint32` arithmetic. -/
def u32 : Nat := 4294967296

/-- Modelled from the spec: the record header is three fixed-width
`uint32` fields (`timestamp`, `key_size`, `value_size`), 4 bytes each,
so the fixed header width is 12 bytes.  The constant `headerSize` is
referenced by `disk_store.go` but its defining file is not under
`src/`. -/
def headerSize : Nat := 12

/-- Modelled from the spec: the fixed byte order used for each `uint32`
header field (the spec fixes *a* byte order; little-endian is used
here, and no claim depends on which fixed order is chosen).  Values
are reduced modulo 2 ^ 32 bytewise, as a Go `uint32` is. -/
def u32ToBytes (n : Nat) : List Nat :=
  [n % 256, n / 256 % 256, n / 65536 % 256, n / 16777216 % 256]

/-- Modelled from the spec: read one `uint32` field back from the first
four bytes of a buffer (the call sites always supply at least four
bytes, since header buffers are allocated at `headerSize`). -/
def bytesToU32 (bs : List Nat) : Nat :=
  match bs with
  | a :: b :: c :: d :: _ => a + 256 * b + 65536 * c + 16777216 * d
  | _ => 0

/-- Modelled from the spec: serialize the three header fields in order
`timestamp ‖ key_size ‖ value_size`, each fixed-width. -/
def encodeHeader (t ks vs : Nat) : List Nat :=
  u32ToBytes t ++ u32ToBytes ks ++ u32ToBytes vs

/-- Modelled from the spec: `encodeKV` returns the record's total size
(`headerSize + len key + len value`, a Go `int`) together with the
record bytes `header ‖ key ‖ value`.  The function itself is not under
`src/`; `disk_store.go` calls it in `Set`. -/
def encodeKV (t : Nat) (key value : List Nat) : Nat × List Nat :=
  (headerSize + key.length + value.length,
   encodeHeader t key.length value.length ++ key ++ value)

/-- Modelled from the spec: decode the three header fields from a
header buffer, using the same fixed byte order as `encodeHeader`. -/
def decodeHeader (bs : List Nat) : Nat × Nat × Nat :=
  (bytesToU32 bs, bytesToU32 (bs.drop 4), bytesToU32 (bs.drop 8))

/-- Modelled from the spec: decode a full record buffer into
`(timestamp, key, value)`; the key occupies bytes
`[headerSize, headerSize + key_size)` and the value the following
`value_size` bytes.  (The Go slicing panics when the buffer is shorter
than the header promises; every call site in `disk_store.go` passes a
buffer whose allocated length covers both ranges, so the `take`-based
slicing here agrees with the source at every call site.) -/
def decodeKV (data : List Nat) : Nat × List Nat × List Nat :=
  let h := decodeHeader data
  (h.1, (data.drop headerSize).take h.2.1,
   (data.drop (headerSize + h.2.1)).take h.2.2)

/-- Modelled from the spec: the in-memory index value: the record's
header timestamp, the byte offset recorded for the record's start, and
the record's total size.  Referenced by `disk_store.go`; its defining
file is not under `src/`. -/
structure KeyEntry where
  timestamp : Nat
  offset : Nat
  size : Nat
deriving DecidableEq, Repr

/-- Modelled from the spec: `KeyEntry` constructor as called by
`disk_store.go`. -/
def NewKeyEntry (t off sz : Nat) : KeyEntry :=
  { timestamp := t, offset := off, size := sz }

/-- The keydir: Go's `map[string]KeyEntry`, as an association list
where the most recent insertion is consed to the front. -/
abbrev KeyDir := List (List Nat × KeyEntry)

/-- `DiskStore` (src/disk_store.go:52): the keydir, the file content
seen through both file handles (the model keeps the single underlying
file's bytes), and the `uint32` session counter `currentOffset`. -/
structure DiskStore where
  keyDir : KeyDir
  file : List Nat
  currentOffset : Nat
deriving DecidableEq, Repr

/-- A Go `Read` into a fresh zero-initialised buffer of length `n`
after seeking to `off`: the available bytes (at most `n`) fill the
front of the buffer, the rest of the buffer stays zero. -/
def readFill (file : List Nat) (off n : Nat) : List Nat :=
  let r := (file.drop off).take n
  r ++ List.replicate (n - r.length) 0

end CaskDB

namespace CaskDB

/-- `getKeyDir`'s recovery loop (src/disk_store.go:84-108), reading
sequentially from the freshly opened handle; `rest` is the unread tail
of the file.  Per iteration: a header read returning zero bytes (clean
end of file) breaks with success; otherwise the (zero-padded) header
buffer is decoded, a payload buffer of `key_size + value_size` bytes is
allocated and read — a zero-byte payload read yields the
`EOF reading key` error and a read at end of file yields `io.EOF`, both
surfaced as `none` — then the key is decoded from the combined buffer,
the entry is installed, and the offset advances by the record's total
size.  `fuel` bounds the iteration count structurally: every iteration
that continues consumes at least one byte of `rest`, so the
`file.length + 1` supplied by `getKeyDir` can never run out (the
`fuel = 0` branch is unreachable from `getKeyDir`). -/
def getKeyDirLoop (fuel : Nat) (rest : List Nat) (offset : Nat)
    (keyDir : KeyDir) : Option KeyDir :=
  match fuel with
  | 0 => none
  | fuel + 1 =>
    if rest = [] then some keyDir
    else
      let headerBuffer := readFill rest 0 headerSize
      let hd := decodeHeader headerBuffer
      let rest2 := rest.drop headerSize
      let kvLen := (hd.2.1 + hd.2.2) % u32
      if kvLen = 0 then none
      else if rest2 = [] then none
      else
        let kvBuffer := readFill rest2 0 kvLen
        let key := (decodeKV (headerBuffer ++ kvBuffer)).2.1
        let totalSize := (headerSize + hd.2.1 + hd.2.2) % u32
        getKeyDirLoop fuel (rest2.drop kvLen) (offset + totalSize)
          ((key, NewKeyEntry hd.1 (offset % u32) totalSize) :: keyDir)

/-- `getKeyDir` (src/disk_store.go:67-110) on a file with the given
content: run the recovery loop from offset 0 with an empty keydir.
(The loop-local `err` of the Go source shadows the outer `err`, so a
clean break returns the keydir with a nil error; `none` here is any
non-nil error return.) -/
def getKeyDir (file : List Nat) : Option KeyDir :=
  getKeyDirLoop (file.length + 1) file 0 []

/-- `NewDiskStore` (src/disk_store.go:112-133): run recovery; on
success the store carries the recovered keydir, the file, and
`currentOffset = 0` (the literal `0` of src/disk_store.go:131). -/
def NewDiskStore (file : List Nat) : Option DiskStore :=
  (getKeyDir file).map fun kd =>
    { keyDir := kd, file := file, currentOffset := 0 }

/-- `Get` (src/disk_store.go:135-145): look the key up in the keydir;
if absent the zero-value string (here `[]`) is returned.  If present,
seek to `entry.offset`, read into a zero-initialised buffer of
`entry.size` bytes (the Go code discards the byte count and error of
this read), decode, and return the value component. -/
def getOp (d : DiskStore) (key : List Nat) : List Nat :=
  match List.lookup key d.keyDir with
  | none => []
  | some e => (decodeKV (readFill d.file e.offset e.size)).2.2

/-- The store state `Set` (src/disk_store.go:147-157) has built by the
time it reaches the `Sync` call: keydir entry installed at
`currentOffset` with the `uint32`-truncated total size, record bytes
appended, `currentOffset` advanced by `uint32(totalSize)` in `uint32`
arithmetic.  `t` stands for `uint32(time.Now().Unix())`'s argument. -/
def setState (d : DiskStore) (t : Nat) (key value : List Nat) : DiskStore :=
  let ts := t % u32
  let enc := encodeKV ts key value
  { keyDir := (key, NewKeyEntry ts d.currentOffset (enc.1 % u32)) :: d.keyDir,
    file := d.file ++ enc.2,
    currentOffset := (d.currentOffset + enc.1 % u32) % u32 }

/-- `Set` (src/disk_store.go:147-157) with the outcome of the final
`writeFileHandle.Sync()` made explicit: when the sync succeeds `Set`
returns normally; when it fails the source panics
(src/disk_store.go:155) — the `Except.error` carries the store state at
the panic point, at which all three mutations have already happened. -/
def setOp (d : DiskStore) (t : Nat) (key value : List Nat)
    (syncOk : Bool) : Except DiskStore DiskStore :=
  if syncOk then Except.ok (setState d t key value)
  else Except.error (setState d t key value)

/-- `Close` (src/disk_store.go:159-163): both handle closes run with
their results discarded (the two booleans stand for whether each
underlying close succeeds) and `true` is returned. -/
def closeOp (_d : DiskStore) (_readCloseOk _writeCloseOk : Bool) : Bool :=
  true

/-- One `Set` call as data: `(timestamp, key, value)`. -/
abbrev Op := Nat × List Nat × List Nat

/-- The encoded total size of one record, `headerSize + len key + len value`. -/
def recSize (op : Op) : Nat := headerSize + op.2.1.length + op.2.2.length

/-- The record bytes `Set` appends for one call (with the `uint32`
truncation Go applies to the timestamp). -/
def encRec (op : Op) : List Nat := (encodeKV (op.1 % u32) op.2.1 op.2.2).2

/-- Sum of the encoded record sizes of a sequence of `Set` calls. -/
def sizeSum (ops : List Op) : Nat := (ops.map recSize).sum

/-- The log bytes produced by a sequence of `Set` calls. -/
def encList (ops : List Op) : List Nat := (ops.map encRec).flatten

/-- Run a sequence of successful `Set` calls against a store. -/
def runSets (d : DiskStore) (ops : List Op) : DiskStore :=
  match ops with
  | [] => d
  | op :: rest => runSets (setState d op.1 op.2.1 op.2.2) rest

/-- Characterization helper (not part of the source model): the entry
the most recent `Set` for key `k` in `ops` would install, when the
first call of `ops` starts writing at offset `off`; `none` when no call
in `ops` writes `k`. -/
def lastEntry (ops : List Op) (k : List Nat) (off : Nat) : Option KeyEntry :=
  match ops with
  | [] => none
  | op :: rest =>
    match lastEntry rest k (off + recSize op) with
    | some e => some e
    | none =>
      if op.2.1 = k then some (NewKeyEntry op.1 off (recSize op)) else none

/-- Characterization helper: take the entry when present, otherwise
fall back to a keydir lookup. -/
def orLookup (o : Option KeyEntry) (kd : KeyDir) (k : List Nat) : Option KeyEntry :=
  match o with
  | some e => some e
  | none => List.lookup k kd

end CaskDB

namespace CaskDB

theorem u32ToBytes_length (n : Nat) : (u32ToBytes n).length = 4 := rfl

theorem encodeHeader_length (t ks vs : Nat) :
    (encodeHeader t ks vs).length = headerSize := rfl

theorem bytesToU32_u32ToBytes (n : Nat) (l : List Nat) :
    bytesToU32 (u32ToBytes n ++ l) = n % u32 := by
  simp [u32ToBytes, bytesToU32, u32]
  omega

theorem decodeHeader_encodeHeader (t ks vs : Nat) (l : List Nat) :
    decodeHeader (encodeHeader t ks vs ++ l) =
      (t % u32, ks % u32, vs % u32) := by
  unfold decodeHeader encodeHeader
  refine Prod.ext ?_ (Prod.ext ?_ ?_)
  · simpa using bytesToU32_u32ToBytes t (u32ToBytes ks ++ u32ToBytes vs ++ l)
  · show bytesToU32 ((u32ToBytes t ++ (u32ToBytes ks ++ (u32ToBytes vs ++ l))).drop 4)
      = ks % u32
    rw [show (4 : Nat) = (u32ToBytes t).length from rfl, List.drop_left,
      ← List.append_assoc]
    exact bytesToU32_u32ToBytes ks (u32ToBytes vs ++ l)
  · show bytesToU32 ((u32ToBytes t ++ (u32ToBytes ks ++ (u32ToBytes vs ++ l))).drop 8)
      = vs % u32
    rw [← List.append_assoc,
      show (8 : Nat) = (u32ToBytes t ++ u32ToBytes ks).length from rfl,
      List.drop_left]
    exact bytesToU32_u32ToBytes vs l

theorem decodeKV_encodeKV (t : Nat) (key value : List Nat)
    (ht : t < u32) (hk : key.length < u32) (hv : value.length < u32) :
    decodeKV (encodeKV t key value).2 = (t, key, value) := by
  unfold decodeKV encodeKV
  simp only [List.append_assoc]
  simp only [decodeHeader_encodeHeader, Nat.mod_eq_of_lt ht,
    Nat.mod_eq_of_lt hk, Nat.mod_eq_of_lt hv]
  refine Prod.ext rfl (Prod.ext ?_ ?_)
  · show ((encodeHeader t key.length value.length ++ (key ++ value)).drop
      headerSize).take key.length = key
    rw [show headerSize = (encodeHeader t key.length value.length).length from rfl,
      List.drop_left, List.take_left]
  · show ((encodeHeader t key.length value.length ++ (key ++ value)).drop
      (headerSize + key.length)).take value.length = value
    rw [← List.drop_drop,
      show headerSize = (encodeHeader t key.length value.length).length from rfl,
      List.drop_left, List.drop_left, List.take_length]

theorem lookup_cons_self (k : List Nat) (e : KeyEntry) (kd : KeyDir) :
    List.lookup k ((k, e) :: kd) = some e := by
  simp [List.lookup]

theorem lookup_cons_ne (k k' : List Nat) (e : KeyEntry) (kd : KeyDir)
    (h : k' ≠ k) : List.lookup k ((k', e) :: kd) = List.lookup k kd := by
  have hb : (k == k') = false := beq_eq_false_iff_ne.mpr fun hh => h hh.symm
  simp [List.lookup, hb]

theorem encRec_length (op : Op) : (encRec op).length = recSize op := by
  simp [encRec, encodeKV, encodeHeader, u32ToBytes, recSize, headerSize]
  omega

theorem sizeSum_nil : sizeSum [] = 0 := rfl

theorem sizeSum_cons (op : Op) (ops : List Op) :
    sizeSum (op :: ops) = recSize op + sizeSum ops := by
  simp [sizeSum]

theorem sizeSum_append (l1 l2 : List Op) :
    sizeSum (l1 ++ l2) = sizeSum l1 + sizeSum l2 := by
  simp [sizeSum]

theorem encList_nil : encList [] = [] := rfl

theorem encList_cons (op : Op) (ops : List Op) :
    encList (op :: ops) = encRec op ++ encList ops := by
  simp [encList]

theorem encList_append (l1 l2 : List Op) :
    encList (l1 ++ l2) = encList l1 ++ encList l2 := by
  simp [encList]

theorem encList_length (ops : List Op) : (encList ops).length = sizeSum ops := by
  induction ops with
  | nil => rfl
  | cons op rest ih =>
    rw [encList_cons, sizeSum_cons, List.length_append, encRec_length, ih]

theorem readFill_exact (file : List Nat) (off n : Nat)
    (h : off + n ≤ file.length) :
    readFill file off n = (file.drop off).take n := by
  have hl : ((file.drop off).take n).length = n := by
    simp only [List.length_take, List.length_drop]
    omega
  simp [readFill, hl]

theorem readFill_seg (a b c : List Nat) :
    readFill (a ++ (b ++ c)) a.length b.length = b := by
  rw [readFill_exact, List.drop_left, List.take_left]
  simp only [List.length_append]
  omega

theorem setState_file (d : DiskStore) (t : Nat) (k v : List Nat) :
    (setState d t k v).file = d.file ++ encRec (t, k, v) := rfl

theorem setState_keyDir (d : DiskStore) (t : Nat) (k v : List Nat) :
    (setState d t k v).keyDir =
      (k, NewKeyEntry (t % u32) d.currentOffset (recSize (t, k, v) % u32))
        :: d.keyDir := rfl

theorem setState_currentOffset (d : DiskStore) (t : Nat) (k v : List Nat) :
    (setState d t k v).currentOffset =
      (d.currentOffset + recSize (t, k, v) % u32) % u32 := rfl

theorem runSets_nil (d : DiskStore) : runSets d [] = d := rfl

theorem runSets_cons (d : DiskStore) (t : Nat) (k v : List Nat) (ops : List Op) :
    runSets d ((t, k, v) :: ops) = runSets (setState d t k v) ops := rfl

theorem runSets_file (ops : List Op) :
    ∀ d : DiskStore, (runSets d ops).file = d.file ++ encList ops := by
  induction ops with
  | nil => intro d; simp [runSets_nil, encList_nil]
  | cons op rest ih =>
    intro d
    obtain ⟨t, k, v⟩ := op
    rw [runSets_cons, ih, setState_file, encList_cons, List.append_assoc]

theorem runSets_currentOffset (ops : List Op) :
    ∀ d : DiskStore, (∀ op ∈ ops, recSize op < u32) →
    d.currentOffset + sizeSum ops < u32 →
    (runSets d ops).currentOffset = d.currentOffset + sizeSum ops := by
  induction ops with
  | nil => intro d _ _; simp [runSets_nil, sizeSum_nil]
  | cons op rest ih =>
    intro d hwf hb
    obtain ⟨t, k, v⟩ := op
    have hsz : recSize (t, k, v) < u32 := hwf _ (List.mem_cons_self _ _)
    have hb' : recSize (t, k, v) + sizeSum rest + d.currentOffset < u32 := by
      rw [sizeSum_cons] at hb
      omega
    rw [runSets_cons, ih _ (fun op h => hwf op (List.mem_cons_of_mem _ h)) ?side,
      setState_currentOffset, sizeSum_cons, Nat.mod_eq_of_lt hsz,
      Nat.mod_eq_of_lt (by omega)]
    · omega
    case side =>
      rw [setState_currentOffset, Nat.mod_eq_of_lt hsz,
        Nat.mod_eq_of_lt (by omega)]
      omega

theorem lastEntry_none (k : List Nat) (ops : List Op) :
    (∀ op ∈ ops, op.2.1 ≠ k) → ∀ off, lastEntry ops k off = none := by
  induction ops with
  | nil => intro _ off; rfl
  | cons op rest ih =>
    intro h off
    have h1 : op.2.1 ≠ k := h op (List.mem_cons_self _ _)
    rw [lastEntry, ih (fun o ho => h o (List.mem_cons_of_mem _ ho)), if_neg h1]

theorem lastEntry_split (t : Nat) (k v : List Nat) (post : List Op)
    (hpost : ∀ op ∈ post, op.2.1 ≠ k) (pre : List Op) :
    ∀ off, lastEntry (pre ++ ((t, k, v) :: post)) k off =
      some (NewKeyEntry t (off + sizeSum pre) (recSize (t, k, v))) := by
  induction pre with
  | nil =>
    intro off
    rw [List.nil_append, lastEntry, lastEntry_none k post hpost]
    simp [sizeSum_nil]
  | cons p pre' ih =>
    intro off
    rw [List.cons_append, lastEntry, ih, sizeSum_cons]
    have : off + recSize p + sizeSum pre' = off + (recSize p + sizeSum pre') := by
      omega
    rw [this]

theorem runSets_lookup (ops : List Op) :
    ∀ (d : DiskStore) (k : List Nat),
    (∀ op ∈ ops, op.1 < u32 ∧ recSize op < u32) →
    d.currentOffset + sizeSum ops < u32 →
    List.lookup k (runSets d ops).keyDir =
      orLookup (lastEntry ops k d.currentOffset) d.keyDir k := by
  induction ops with
  | nil => intro d k _ _; rfl
  | cons op rest ih =>
    intro d k hwf hb
    obtain ⟨t, k', v⟩ := op
    have hself := hwf _ (List.mem_cons_self _ _)
    have ht : t < u32 := hself.1
    have hsz : recSize (t, k', v) < u32 := hself.2
    have hco : d.currentOffset + recSize (t, k', v) < u32 := by
      rw [sizeSum_cons] at hb
      omega
    have hset : (setState d t k' v).currentOffset =
        d.currentOffset + recSize (t, k', v) := by
      rw [setState_currentOffset, Nat.mod_eq_of_lt hsz, Nat.mod_eq_of_lt hco]
    rw [runSets_cons,
      ih _ k (fun o ho => hwf o (List.mem_cons_of_mem _ ho))
        (by rw [hset]; rw [sizeSum_cons] at hb; omega),
      hset, setState_keyDir, lastEntry]
    rcases hle : lastEntry rest k (d.currentOffset + recSize (t, k', v)) with
      _ | e
    · show List.lookup k
        ((k', NewKeyEntry (t % u32) d.currentOffset (recSize (t, k', v) % u32))
          :: d.keyDir) = orLookup _ d.keyDir k
      by_cases hk : k' = k
      · subst hk
        rw [lookup_cons_self, if_pos rfl, Nat.mod_eq_of_lt ht,
          Nat.mod_eq_of_lt hsz]
        rfl
      · rw [lookup_cons_ne _ _ _ _ hk, if_neg hk]
        rfl
    · rfl

theorem recSize_bounds (t : Nat) (k v : List Nat)
    (h : recSize (t, k, v) < u32) : k.length < u32 ∧ v.length < u32 := by
  simp only [recSize, headerSize] at h
  constructor <;> omega

theorem decodeKV_encRec (t : Nat) (k v : List Nat)
    (hsz : recSize (t, k, v) < u32) :
    decodeKV (encRec (t, k, v)) = (t % u32, k, v) := by
  obtain ⟨hk, hv⟩ := recSize_bounds t k v hsz
  exact decodeKV_encodeKV (t % u32) k v
    (Nat.mod_lt _ (by norm_num [u32])) hk hv

theorem lookup_runSets_last (pre post : List Op) (t : Nat) (k v : List Nat)
    (hwf : ∀ op ∈ pre ++ ((t, k, v) :: post), op.1 < u32 ∧ recSize op < u32)
    (hb : sizeSum (pre ++ ((t, k, v) :: post)) < u32)
    (hpost : ∀ op ∈ post, op.2.1 ≠ k) :
    List.lookup k (runSets ⟨[], [], 0⟩ (pre ++ ((t, k, v) :: post))).keyDir =
      some (NewKeyEntry t (sizeSum pre) (recSize (t, k, v))) := by
  rw [runSets_lookup _ _ k hwf (by simpa using hb),
    show (DiskStore.mk [] [] 0).currentOffset = 0 from rfl,
    lastEntry_split t k v post hpost pre]
  simp [orLookup]

theorem getOp_runSets_last (pre post : List Op) (t : Nat) (k v : List Nat)
    (hwf : ∀ op ∈ pre ++ ((t, k, v) :: post), op.1 < u32 ∧ recSize op < u32)
    (hb : sizeSum (pre ++ ((t, k, v) :: post)) < u32)
    (hpost : ∀ op ∈ post, op.2.1 ≠ k) :
    getOp (runSets ⟨[], [], 0⟩ (pre ++ ((t, k, v) :: post))) k = v := by
  have hlk := lookup_runSets_last pre post t k v hwf hb hpost
  have hfile : (runSets ⟨[], [], 0⟩ (pre ++ ((t, k, v) :: post))).file =
      encList pre ++ (encRec (t, k, v) ++ encList post) := by
    rw [runSets_file]
    simp [encList_append, encList_cons]
  have hread : readFill (encList pre ++ (encRec (t, k, v) ++ encList post))
      (sizeSum pre) (recSize (t, k, v)) = encRec (t, k, v) := by
    rw [← encList_length pre, ← encRec_length (t, k, v)]
    exact readFill_seg _ _ _
  have hsz : recSize (t, k, v) < u32 :=
    (hwf (t, k, v) (by simp)).2
  simp only [getOp, hlk, hfile, NewKeyEntry, hread, decodeKV_encRec t k v hsz]

theorem decodeHeader_encodeHeader_nil (t ks vs : Nat) :
    decodeHeader (encodeHeader t ks vs) = (t % u32, ks % u32, vs % u32) := by
  have h := decodeHeader_encodeHeader t ks vs []
  simpa using h

theorem u32_pos : 0 < u32 := by norm_num [u32]

theorem recSize_ge (op : Op) : headerSize ≤ recSize op := by
  simp [recSize]
  omega

theorem getKeyDirLoop_step (f off : Nat) (acc : KeyDir) (t : Nat)
    (k v : List Nat) (rest : List Op)
    (hsz : recSize (t, k, v) < u32)
    (hkv : 0 < k.length + v.length) (hoff : off < u32) :
    getKeyDirLoop (f + 1) (encList ((t, k, v) :: rest)) off acc =
      getKeyDirLoop f (encList rest) (off + recSize (t, k, v))
        ((k, NewKeyEntry (t % u32) off (recSize (t, k, v))) :: acc) := by
  have hkl : k.length < u32 := (recSize_bounds t k v hsz).1
  have hvl : v.length < u32 := (recSize_bounds t k v hsz).2
  have hklvl : k.length + v.length < u32 := by
    simp only [recSize, headerSize] at hsz
    omega
  have hL : encList ((t, k, v) :: rest) =
      encodeHeader (t % u32) k.length v.length ++
        (k ++ (v ++ encList rest)) := by
    rw [encList_cons]
    show (encodeHeader (t % u32) k.length v.length ++ k ++ v) ++ encList rest = _
    simp [List.append_assoc]
  have hne : encList ((t, k, v) :: rest) ≠ [] := by
    rw [hL]
    intro hnil
    have := congrArg List.length hnil
    simp [List.length_append, encodeHeader_length, headerSize] at this
  have hhb : readFill (encList ((t, k, v) :: rest)) 0 headerSize =
      encodeHeader (t % u32) k.length v.length := by
    rw [readFill_exact _ _ _ ?bound, List.drop_zero, hL,
      show headerSize = (encodeHeader (t % u32) k.length v.length).length from
        (encodeHeader_length _ _ _).symm,
      List.take_left]
    case bound =>
      rw [hL]
      simp [List.length_append, encodeHeader_length, headerSize]
  have hdh : decodeHeader (encodeHeader (t % u32) k.length v.length) =
      (t % u32, k.length, v.length) := by
    rw [decodeHeader_encodeHeader_nil,
      Nat.mod_eq_of_lt (Nat.mod_lt _ u32_pos), Nat.mod_eq_of_lt hkl,
      Nat.mod_eq_of_lt hvl]
  have hrest2 : (encList ((t, k, v) :: rest)).drop headerSize =
      (k ++ v) ++ encList rest := by
    rw [hL,
      show headerSize = (encodeHeader (t % u32) k.length v.length).length from
        (encodeHeader_length _ _ _).symm,
      List.drop_left, ← List.append_assoc]
  have hkvlen : (k.length + v.length) % u32 = k.length + v.length :=
    Nat.mod_eq_of_lt hklvl
  have h1 : ¬(k.length + v.length = 0) := by omega
  have h2 : (k ++ v) ++ encList rest ≠ [] := by
    intro hnil
    have hlen : ((k ++ v) ++ encList rest).length = 0 := by rw [hnil]; rfl
    rw [List.length_append, List.length_append] at hlen
    omega
  have hkvbuf : readFill ((k ++ v) ++ encList rest) 0 (k.length + v.length) =
      k ++ v := by
    rw [readFill_exact _ _ _ ?bd, List.drop_zero,
      show k.length + v.length = (k ++ v).length from
        (List.length_append _ _).symm,
      List.take_left]
    case bd => simp [List.length_append]
  have hkey : (decodeKV (encodeHeader (t % u32) k.length v.length ++
      (k ++ v))).2.1 = k := by
    rw [← List.append_assoc,
      show encodeHeader (t % u32) k.length v.length ++ k ++ v =
        encRec (t, k, v) from rfl,
      decodeKV_encRec t k v hsz]
  have htots : (headerSize + k.length + v.length) % u32 = recSize (t, k, v) :=
    Nat.mod_eq_of_lt hsz
  have hoffm : off % u32 = off := Nat.mod_eq_of_lt hoff
  have hdropkv : List.drop (k.length + v.length) ((k ++ v) ++ encList rest) =
      encList rest := by
    rw [show k.length + v.length = (k ++ v).length from
      (List.length_append _ _).symm, List.drop_left]
  simp only [getKeyDirLoop, if_neg hne, hhb, hdh, hrest2, hkvlen, if_neg h1,
    if_neg h2, hkvbuf, hkey, htots, hoffm, hdropkv]

theorem getKeyDirLoop_replay (ops : List Op) :
    ∀ (fuel off : Nat) (acc : KeyDir),
    (∀ op ∈ ops,
      op.1 < u32 ∧ recSize op < u32 ∧ 0 < op.2.1.length + op.2.2.length) →
    off + sizeSum ops < u32 →
    (encList ops).length < fuel →
    ∃ kd, getKeyDirLoop fuel (encList ops) off acc = some kd ∧
      ∀ k, List.lookup k kd = orLookup (lastEntry ops k off) acc k := by
  induction ops with
  | nil =>
    intro fuel off acc _ _ hfuel
    obtain ⟨f, rfl⟩ : ∃ f, fuel = f + 1 := ⟨fuel - 1, by omega⟩
    exact ⟨acc, rfl, fun k => rfl⟩
  | cons op rest ih =>
    obtain ⟨t, k', v⟩ := op
    intro fuel off acc hwf hb hfuel
    obtain ⟨f, rfl⟩ : ∃ f, fuel = f + 1 := ⟨fuel - 1, by omega⟩
    have hself := hwf _ (List.mem_cons_self _ _)
    have ht : t < u32 := hself.1
    have hsz : recSize (t, k', v) < u32 := hself.2.1
    have hkv : 0 < k'.length + v.length := hself.2.2
    have hb' : off + recSize (t, k', v) + sizeSum rest < u32 := by
      rw [sizeSum_cons] at hb
      omega
    have hoff : off < u32 := by omega
    have hfuel' : (encList rest).length < f := by
      rw [encList_cons, List.length_append, encRec_length] at hfuel
      have h12 := recSize_ge (t, k', v)
      have hh : headerSize = 12 := rfl
      omega
    rw [getKeyDirLoop_step f off acc t k' v rest hsz hkv hoff]
    obtain ⟨kd, hkd, hlook⟩ := ih f (off + recSize (t, k', v))
      ((k', NewKeyEntry (t % u32) off (recSize (t, k', v))) :: acc)
      (fun o ho => hwf o (List.mem_cons_of_mem _ ho)) (by omega) hfuel'
    refine ⟨kd, hkd, fun k => ?_⟩
    rw [hlook k]
    show orLookup (lastEntry rest k (off + recSize (t, k', v)))
        ((k', NewKeyEntry (t % u32) off (recSize (t, k', v))) :: acc) k =
      orLookup (lastEntry ((t, k', v) :: rest) k off) acc k
    rw [lastEntry, Nat.mod_eq_of_lt ht]
    cases hle : lastEntry rest k (off + recSize (t, k', v)) with
    | none =>
      by_cases hk : k' = k
      · rw [hk, if_pos rfl]
        show List.lookup k ((k, NewKeyEntry t off (recSize (t, k, v))) :: acc)
          = some (NewKeyEntry t off (recSize (t, k, v)))
        exact lookup_cons_self _ _ _
      · show List.lookup k
            ((k', NewKeyEntry t off (recSize (t, k', v))) :: acc)
          = orLookup (if k' = k
              then some (NewKeyEntry t off (recSize (t, k', v))) else none)
              acc k
        rw [lookup_cons_ne _ _ _ _ hk, if_neg hk]
        rfl
    | some e => rfl

theorem getKeyDir_replay (ops : List Op)
    (hwf : ∀ op ∈ ops,
      op.1 < u32 ∧ recSize op < u32 ∧ 0 < op.2.1.length + op.2.2.length)
    (hb : sizeSum ops < u32) :
    ∃ kd, getKeyDir (encList ops) = some kd ∧
      ∀ k, List.lookup k kd = lastEntry ops k 0 := by
  obtain ⟨kd, hkd, hlook⟩ := getKeyDirLoop_replay ops ((encList ops).length + 1)
    0 [] hwf (by simpa using hb) (by omega)
  refine ⟨kd, hkd, fun k => ?_⟩
  rw [hlook k]
  cases lastEntry ops k 0 <;> rfl

theorem runSets_lookup_empty (ops : List Op) (k : List Nat)
    (hwf : ∀ op ∈ ops, op.1 < u32 ∧ recSize op < u32)
    (hb : sizeSum ops < u32) :
    List.lookup k (runSets ⟨[], [], 0⟩ ops).keyDir = lastEntry ops k 0 := by
  rw [runSets_lookup ops ⟨[], [], 0⟩ k hwf (by simpa using hb)]
  show orLookup (lastEntry ops k 0) [] k = lastEntry ops k 0
  cases lastEntry ops k 0 <;> rfl

theorem getOp_eq_of (d d' : DiskStore) (k : List Nat)
    (hkd : List.lookup k d.keyDir = List.lookup k d'.keyDir)
    (hf : d.file = d'.file) : getOp d k = getOp d' k := by
  unfold getOp
  rw [hkd, hf]

theorem NewDiskStore_empty : NewDiskStore ([] : List Nat) =
    some { keyDir := [], file := [], currentOffset := 0 } := by
  decide

end CaskDB

namespace CaskDB

/-- C1: codec round-trip — for every timestamp `t` in `uint32` range and
every key and value byte strings (empty and arbitrary content included,
lengths within the `uint32` size fields), decoding the bytes produced by
encoding `(t, k, v)` yields exactly `(t, k, v)`. -/
theorem C1_codec_roundtrip (t : Nat) (k v : List Nat)
    (ht : t < u32) (hk : k.length < u32) (hv : v.length < u32) :
    decodeKV (encodeKV t k v).2 = (t, k, v) :=
  decodeKV_encodeKV t k v ht hk hv

/-- Witness for C1 at a concrete input: empty key, value containing a
null byte and a multi-byte UTF-8 sequence. -/
theorem C1_codec_roundtrip_witness :
    7 < u32 ∧ decodeKV (encodeKV 7 [] [0, 195, 169]).2 = (7, [], [0, 195, 169]) :=
  ⟨by decide,
    C1_codec_roundtrip 7 [] [0, 195, 169] (by decide) (by decide) (by decide)⟩

/-- C2: last-write-wins — on a store opened on an empty file, after
`Set(k, v1)` and later `Set(k, v2)` with any other `Set` calls on other
keys interleaved, `Get(k)` returns `v2`, and the log file physically
contains both records (the log is only ever appended to); only the
second record is reachable through the keydir. -/
theorem C2_last_write_wins (d0 : DiskStore) (hd0 : NewDiskStore [] = some d0)
    (pre mid post : List Op) (t1 t2 : Nat) (k v1 v2 : List Nat)
    (hwf : ∀ op ∈ pre ++ ((t1, k, v1) :: (mid ++ ((t2, k, v2) :: post))),
      op.1 < u32 ∧ recSize op < u32)
    (hb : sizeSum (pre ++ ((t1, k, v1) :: (mid ++ ((t2, k, v2) :: post)))) < u32)
    (_hmid : ∀ op ∈ mid, op.2.1 ≠ k) (hpost : ∀ op ∈ post, op.2.1 ≠ k) :
    getOp (runSets d0 (pre ++ ((t1, k, v1) :: (mid ++ ((t2, k, v2) :: post))))) k
        = v2 ∧
      (runSets d0 (pre ++ ((t1, k, v1) :: (mid ++ ((t2, k, v2) :: post))))).file
        = encList pre ++ (encRec (t1, k, v1) ++ (encList mid ++
            (encRec (t2, k, v2) ++ encList post))) := by
  rw [NewDiskStore_empty] at hd0
  obtain rfl := Option.some.inj hd0
  have hassoc : pre ++ ((t1, k, v1) :: (mid ++ ((t2, k, v2) :: post))) =
      (pre ++ ((t1, k, v1) :: mid)) ++ ((t2, k, v2) :: post) := by
    simp [List.append_assoc]
  constructor
  · rw [hassoc] at hwf hb ⊢
    exact getOp_runSets_last (pre ++ ((t1, k, v1) :: mid)) post t2 k v2
      hwf hb hpost
  · rw [runSets_file]
    simp [encList_append, encList_cons, List.append_assoc]

/-- Witness for C2 at a concrete run: two writes to key `[1]` with an
unrelated write interleaved. -/
theorem C2_last_write_wins_witness :
    getOp (runSets { keyDir := [], file := [], currentOffset := 0 }
        ([] ++ ((10, [1], [2]) :: ([(1, [5], [6])] ++ ((11, [1], [3]) :: [])))))
        [1] = [3] ∧
      (runSets { keyDir := [], file := [], currentOffset := 0 }
        ([] ++ ((10, [1], [2]) :: ([(1, [5], [6])] ++ ((11, [1], [3]) :: []))))).file
        = encList [] ++ (encRec (10, [1], [2]) ++ (encList [(1, [5], [6])] ++
            (encRec (11, [1], [3]) ++ encList []))) :=
  C2_last_write_wins ⟨[], [], 0⟩ (by decide) [] [(1, [5], [6])] [] 10 11
    [1] [2] [3] (by decide) (by decide) (by decide) (by decide)

/-- C3 counterexample: the claim quantifies over every key and value,
but after `Set("", "")` on a store opened on an empty file, reopening
FAILS — the written record is a bare header with
`key_size = value_size = 0`, the recovery scan's zero-length payload
read returns zero bytes, and `getKeyDir` errors out instead of
completing. -/
theorem C3_counterexample :
    NewDiskStore
      (runSets { keyDir := [], file := [], currentOffset := 0 }
        [(1, [], [])]).file = none := by
  decide

/-- C3 (amended): durability across reopen — on a store opened on an
empty file, for writes whose records are nonempty (`key` and `value`
not both empty; the recovery scan rejects a record with
`key_size + value_size = 0`), after the session's `Set` calls, opening
a new store on the written file succeeds, `Get(k)` on the new store
returns the last value written for `k`, and the recovered keydir agrees
with the pre-close keydir on every key. -/
theorem C3_durability_across_reopen (d0 : DiskStore)
    (hd0 : NewDiskStore [] = some d0)
    (pre post : List Op) (t : Nat) (k v : List Nat)
    (hwf : ∀ op ∈ pre ++ ((t, k, v) :: post),
      op.1 < u32 ∧ recSize op < u32 ∧ 0 < op.2.1.length + op.2.2.length)
    (hb : sizeSum (pre ++ ((t, k, v) :: post)) < u32)
    (hpost : ∀ op ∈ post, op.2.1 ≠ k) :
    ∃ d2, NewDiskStore (runSets d0 (pre ++ ((t, k, v) :: post))).file = some d2 ∧
      getOp d2 k = v ∧
      ∀ k2, List.lookup k2 d2.keyDir =
        List.lookup k2 (runSets d0 (pre ++ ((t, k, v) :: post))).keyDir := by
  rw [NewDiskStore_empty] at hd0
  obtain rfl := Option.some.inj hd0
  have hwf2 : ∀ op ∈ pre ++ ((t, k, v) :: post), op.1 < u32 ∧ recSize op < u32 :=
    fun o ho => ⟨(hwf o ho).1, (hwf o ho).2.1⟩
  have hfile : (runSets ⟨[], [], 0⟩ (pre ++ ((t, k, v) :: post))).file =
      encList (pre ++ ((t, k, v) :: post)) := by
    rw [runSets_file]
    rfl
  obtain ⟨kd, hkd, hlook⟩ := getKeyDir_replay (pre ++ ((t, k, v) :: post)) hwf hb
  refine ⟨⟨kd, encList (pre ++ ((t, k, v) :: post)), 0⟩, ?_, ?_, ?_⟩
  · rw [hfile]
    simp [NewDiskStore, hkd]
  · have h1 : getOp ⟨kd, encList (pre ++ ((t, k, v) :: post)), 0⟩ k =
        getOp (runSets ⟨[], [], 0⟩ (pre ++ ((t, k, v) :: post))) k := by
      apply getOp_eq_of
      · show List.lookup k kd = _
        rw [hlook k, runSets_lookup_empty _ k hwf2 hb]
      · show encList (pre ++ ((t, k, v) :: post)) = _
        rw [hfile]
    rw [h1]
    exact getOp_runSets_last pre post t k v hwf2 hb hpost
  · intro k2
    show List.lookup k2 kd = _
    rw [hlook k2, runSets_lookup_empty _ k2 hwf2 hb]

/-- Witness for the amended C3: one write of key `[8]`, value `[9]`,
closed and reopened. -/
theorem C3_durability_witness :
    ∃ d2, NewDiskStore
        (runSets { keyDir := [], file := [], currentOffset := 0 }
          ([] ++ ((5, [8], [9]) :: []))).file = some d2 ∧
      getOp d2 [8] = [9] ∧
      ∀ k2, List.lookup k2 d2.keyDir =
        List.lookup k2 (runSets { keyDir := [], file := [], currentOffset := 0 }
          ([] ++ ((5, [8], [9]) :: []))).keyDir :=
  C3_durability_across_reopen ⟨[], [], 0⟩ (by decide) [] [] 5 [8] [9]
    (by decide) (by decide) (by decide)

/-- C4: the claim (and the `DiskStore` doc comment, which promises an
error on an invalid or corrupt file) requires opening to fail on a log
ending in a record whose key+value payload is shorter than
`key_size + value_size`.  The code instead succeeds: on a log holding
one valid record (`0x61 -> 0x62`) followed by a header promising a
1-byte key and a 1-byte value but only one payload byte, the payload
read returns the single byte with no error, the zero-padded buffer is
decoded, an entry for the truncated record's key `0x63` (pointing one
byte past the end of file) is installed, and `NewDiskStore` returns a
usable store. -/
theorem C4_truncated_payload_accepted :
    NewDiskStore (encRec (0, [97], [98]) ++ (encodeHeader 5 1 1 ++ [99])) =
      some { keyDir :=
              [([99], { timestamp := 5, offset := 14, size := 14 }),
               ([97], { timestamp := 0, offset := 0, size := 14 })],
             file := encRec (0, [97], [98]) ++ (encodeHeader 5 1 1 ++ [99]),
             currentOffset := 0 } := by
  decide

/-- C5: offset accounting — on a store opened on an empty file, after a
sequence of `Set` calls the log file's byte length is the sum of the
encoded record sizes; the keydir entry installed by each call carries
the prefix sum of the sizes written before it as its offset and the
call's own record size as its size; and the recovery scan reproduces
the session keydir (hence the same prefix-sum offsets). -/
theorem C5_offset_accounting (d0 : DiskStore) (hd0 : NewDiskStore [] = some d0)
    (pre post : List Op) (op : Op)
    (hwf : ∀ o ∈ pre ++ (op :: post),
      o.1 < u32 ∧ recSize o < u32 ∧ 0 < o.2.1.length + o.2.2.length)
    (hb : sizeSum (pre ++ (op :: post)) < u32) :
    (runSets d0 (pre ++ (op :: post))).file.length =
        sizeSum (pre ++ (op :: post)) ∧
      List.lookup op.2.1 (runSets d0 (pre ++ [op])).keyDir =
        some (NewKeyEntry op.1 (sizeSum pre) (recSize op)) ∧
      ∃ kd, getKeyDir (runSets d0 (pre ++ (op :: post))).file = some kd ∧
        ∀ k2, List.lookup k2 kd =
          List.lookup k2 (runSets d0 (pre ++ (op :: post))).keyDir := by
  rw [NewDiskStore_empty] at hd0
  obtain rfl := Option.some.inj hd0
  have hwf2 : ∀ o ∈ pre ++ (op :: post), o.1 < u32 ∧ recSize o < u32 :=
    fun o ho => ⟨(hwf o ho).1, (hwf o ho).2.1⟩
  refine ⟨?_, ?_, ?_⟩
  · rw [runSets_file]
    show ([] ++ encList (pre ++ (op :: post))).length = _
    rw [List.nil_append, encList_length]
  · obtain ⟨t, k, v⟩ := op
    have hsub : ∀ o ∈ pre ++ ((t, k, v) :: []), o ∈ pre ++ ((t, k, v) :: post) := by
      intro o ho
      rcases List.mem_append.mp ho with h | h
      · exact List.mem_append_left _ h
      · rcases List.mem_cons.mp h with h | h
        · subst h
          exact List.mem_append_right _ (List.mem_cons_self _ _)
        · exact absurd h (List.not_mem_nil o)
    have hb' : sizeSum (pre ++ ((t, k, v) :: [])) < u32 := by
      rw [sizeSum_append, sizeSum_cons, sizeSum_nil]
      rw [sizeSum_append, sizeSum_cons] at hb
      omega
    exact lookup_runSets_last pre [] t k v
      (fun o ho => hwf2 o (hsub o ho)) hb'
      (fun o ho => absurd ho (List.not_mem_nil o))
  · obtain ⟨kd, hkd, hlook⟩ := getKeyDir_replay (pre ++ (op :: post)) hwf hb
    have hfile : (runSets ⟨[], [], 0⟩ (pre ++ (op :: post))).file =
        encList (pre ++ (op :: post)) := by
      rw [runSets_file]
      rfl
    refine ⟨kd, ?_, ?_⟩
    · rw [hfile]
      exact hkd
    · intro k2
      rw [hlook k2, runSets_lookup_empty _ k2 hwf2 hb]

/-- Witness for C5 at a concrete run of two writes. -/
theorem C5_offset_accounting_witness :
    (runSets { keyDir := [], file := [], currentOffset := 0 }
        ([(1, [2], [3])] ++ ((4, [5], [6]) :: []))).file.length =
      sizeSum ([(1, [2], [3])] ++ ((4, [5], [6]) :: [])) ∧
    List.lookup (4, [5], [6]).2.1
        (runSets { keyDir := [], file := [], currentOffset := 0 }
          ([(1, [2], [3])] ++ [(4, [5], [6])])).keyDir =
      some (NewKeyEntry (4, [5], [6]).1 (sizeSum [(1, [2], [3])])
        (recSize (4, [5], [6]))) ∧
    ∃ kd, getKeyDir (runSets { keyDir := [], file := [], currentOffset := 0 }
        ([(1, [2], [3])] ++ ((4, [5], [6]) :: []))).file = some kd ∧
      ∀ k2, List.lookup k2 kd =
        List.lookup k2 (runSets { keyDir := [], file := [], currentOffset := 0 }
          ([(1, [2], [3])] ++ ((4, [5], [6]) :: []))).keyDir :=
  C5_offset_accounting ⟨[], [], 0⟩ (by decide) [(1, [2], [3])] []
    (4, [5], [6]) (by decide) (by decide)

/-- C6: the session counter starts at zero — whenever `NewDiskStore`
succeeds, including on a non-empty log file, the returned store's
`currentOffset` is the literal `0`; the recovery scan never writes the
file's length into it. -/
theorem C6_current_offset_zero (file : List Nat) (d : DiskStore)
    (h : NewDiskStore file = some d) : d.currentOffset = 0 := by
  unfold NewDiskStore at h
  obtain ⟨kd, _, hfd⟩ := Option.map_eq_some'.mp h
  rw [← hfd]

/-- Witness for C6 on a non-empty log file holding one record. -/
theorem C6_current_offset_zero_witness :
    DiskStore.currentOffset
      { keyDir := [([97], { timestamp := 7, offset := 0, size := 14 })],
        file := encRec (7, [97], [98]), currentOffset := 0 } = 0 :=
  C6_current_offset_zero (encRec (7, [97], [98]))
    { keyDir := [([97], { timestamp := 7, offset := 0, size := 14 })],
      file := encRec (7, [97], [98]), currentOffset := 0 } (by decide)

/-- C7: missing key — `Get` on a key absent from the keydir returns the
empty string without failing, and the result is the same as `Get` of a
key whose stored value is the empty string. -/
theorem C7_missing_key :
    (∀ (d : DiskStore) (k : List Nat),
      List.lookup k d.keyDir = none → getOp d k = []) ∧
    (∀ (d0 : DiskStore) (t : Nat) (k : List Nat),
      NewDiskStore [] = some d0 → t < u32 → recSize (t, k, []) < u32 →
      getOp (runSets d0 [(t, k, [])]) k = []) := by
  constructor
  · intro d k h
    unfold getOp
    rw [h]
  · intro d0 t k hd0 ht hsz
    rw [NewDiskStore_empty] at hd0
    obtain rfl := Option.some.inj hd0
    have hwf : ∀ o ∈ ([] : List Op) ++ ((t, k, []) :: []),
        o.1 < u32 ∧ recSize o < u32 := by
      intro o ho
      simp only [List.nil_append, List.mem_cons, List.not_mem_nil,
        or_false] at ho
      subst ho
      exact ⟨ht, hsz⟩
    have hb : sizeSum (([] : List Op) ++ ((t, k, []) :: [])) < u32 := by
      rw [List.nil_append, sizeSum_cons, sizeSum_nil]
      omega
    exact getOp_runSets_last [] [] t k [] hwf hb
      (fun o ho => absurd ho (List.not_mem_nil o))

/-- Witness for C7: a never-written key on the empty store, and a key
stored with the empty value. -/
theorem C7_missing_key_witness :
    getOp { keyDir := [], file := [], currentOffset := 0 } [5] = [] ∧
    getOp (runSets { keyDir := [], file := [], currentOffset := 0 }
      [(3, [5], [])]) [5] = [] :=
  ⟨C7_missing_key.1 ⟨[], [], 0⟩ [5] (by decide),
   C7_missing_key.2 ⟨[], [], 0⟩ 3 [5] (by decide) (by decide) (by decide)⟩

/-- C8 counterexample: the claim requires `Get` to fail when fewer than
`entry.size` bytes can be read, but `Get` discards the read's byte
count and error (src/disk_store.go:140): on a store whose 14-byte
record was truncated to 13 bytes out from under it, `Get` returns the
value `[0]` decoded from the zero-padded buffer — a defined value,
different from the stored `[98]`, instead of any failure. -/
theorem C8_counterexample :
    getOp { keyDir := [([97], { timestamp := 0, offset := 0, size := 14 })],
            file := (encRec (0, [97], [98])).take 13,
            currentOffset := 14 } [97] = [0] ∧
      ([0] : List Nat) ≠ [98] := by
  decide

/-- C8 (amended): `Get` on a key present in the keydir seeks to
`entry.offset` and reads at most `entry.size` bytes; a short read is
not detected — the unread tail of the buffer stays zero and `Get`
returns the value component decoded from that zero-padded buffer,
never an error. -/
theorem C8_short_read_decodes_padded (d : DiskStore) (k : List Nat)
    (e : KeyEntry) (h : List.lookup k d.keyDir = some e) :
    getOp d k = (decodeKV ((d.file.drop e.offset).take e.size ++
      List.replicate (e.size - min e.size (d.file.length - e.offset)) 0)).2.2 := by
  simp only [getOp, h, readFill, List.length_take, List.length_drop]

/-- Witness for the amended C8 on the truncated-record store. -/
theorem C8_short_read_witness :
    getOp { keyDir := [([97], { timestamp := 0, offset := 0, size := 14 })],
            file := (encRec (0, [97], [98])).take 13,
            currentOffset := 14 } [97]
      = (decodeKV (((((encRec (0, [97], [98])).take 13)).drop 0).take 14 ++
          List.replicate
            (14 - min 14 (((encRec (0, [97], [98])).take 13).length - 0))
            0)).2.2 :=
  C8_short_read_decodes_padded
    { keyDir := [([97], { timestamp := 0, offset := 0, size := 14 })],
      file := (encRec (0, [97], [98])).take 13, currentOffset := 14 }
    [97] { timestamp := 0, offset := 0, size := 14 } (by decide)

/-- C9: the sync outcome decides `Set`'s result — with a successful
sync `Set` returns normally, with a failed sync it aborts by panicking
— and in both cases the state at that point already has the new keydir
entry installed at the old `currentOffset`, the record appended to the
log, and `currentOffset` advanced; the failed operation is not rolled
back. -/
theorem C9_sync_failure_not_rolled_back (d : DiskStore) (t : Nat)
    (k v : List Nat) :
    ∃ s, setOp d t k v true = Except.ok s ∧
      setOp d t k v false = Except.error s ∧
      List.lookup k s.keyDir =
        some (NewKeyEntry (t % u32) d.currentOffset
          ((headerSize + k.length + v.length) % u32)) ∧
      s.currentOffset =
        (d.currentOffset + (headerSize + k.length + v.length) % u32) % u32 ∧
      s.file = d.file ++ encRec (t, k, v) := by
  refine ⟨setState d t k v, rfl, rfl, ?_, rfl, rfl⟩
  rw [setState_keyDir]
  exact lookup_cons_self _ _ _

/-- C10: `Close` always reports success — it returns `true` whatever
the outcomes of closing the two file handles are. -/
theorem C10_close_returns_true (d : DiskStore) (rOk wOk : Bool) :
    closeOp d rOk wOk = true := rfl

end CaskDB
